import Mathlib

/-!
# Verification of the Kitty ICO settlement decision engine

Shallow embedding of the settlement core of `src/oracle/agent.py`:
bid normalization (`decrypt_bid`), scoring (`score_bid` / `_score_pitch`),
greedy allocation (`_determine_winners`), settlement encoding and signing
(`_encode_settlement_result` / `_sign_settlement`), settlement-parameter
construction (`_build_settlement_params`) and the settlement store
(`process_settlement` / `_store_settlement_result`).

Modelling conventions:
* Python floats carrying money amounts and scores are modelled as exact
  rationals (`ℚ`).  None of the properties verified here depends on IEEE
  rounding; all concrete scenario values are exactly representable.
* Python `int(x)` (truncation toward zero) is modelled by `pyInt`.
* Python `dict` assignment `d[k] = v` (update the existing entry in place,
  else append) is modelled by `dictInsert` on association lists.
* The external ABI decoder is modelled by the inductive `RawBlob`:
  a payload either matches the expected `(uint256, uint256, string, string)`
  structure or it is malformed.
* Python's `hash(bidder)` (used by the development fallback of
  `decrypt_bid`) is an abstract parameter `pyHash : String → ℕ`.
-/

/-- Python `int(x)` on a rational: truncation toward zero. -/
def pyInt (q : ℚ) : ℤ := if 0 ≤ q then ⌊q⌋ else ⌈q⌉

/-- Python dict assignment `d[k] = v` on an association list: replace the
value of the first entry with key `k` (keeping its position), else append. -/
def dictInsert {κ α : Type} [DecidableEq κ] : List (κ × α) → κ → α → List (κ × α)
  | [], k, v => [(k, v)]
  | p :: rest, k, v => if p.1 = k then (k, v) :: rest else p :: dictInsert rest k v

/-- Python dict lookup `d.get(k)` on an association list. -/
def dictLookup {κ α : Type} [DecidableEq κ] : List (κ × α) → κ → Option α
  | [], _ => none
  | p :: rest, k => if p.1 = k then some p.2 else dictLookup rest k

/-- `BidData` from `agent.py`: the decrypted bid. -/
structure BidData where
  bidder : String
  price : ℚ
  quantity : ℕ
  pitch : String
  country : String
  max_spend : ℚ
deriving DecidableEq

/-- `ScoredBid` from `agent.py`: a bid together with its sub-scores. -/
structure ScoredBid where
  bid_data : BidData
  price_score : ℚ
  geo_score : ℚ
  pitch_score : ℚ
  total_score : ℚ
deriving DecidableEq

/-- `SettlementResult` from `agent.py`. -/
structure SettlementResult where
  sale_id : ℕ
  clearing_price : ℚ
  winners : List String
  allocations : List (String × ℤ)
  bid_amounts : List (String × ℕ)
  total_bids : ℕ
deriving DecidableEq

/-! ## Bid normalization (`BidProcessor.decrypt_bid`, agent.py lines 338-397) -/

/-- The result of the external ABI decoder on the raw encrypted payload:
either the expected `(uint256 price, uint256 quantity, string pitch,
string country)` structure, or a payload that does not match it. -/
inductive RawBlob
  | structured (price_wei : ℕ) (quantity_wei : ℕ) (pitch : String) (country : String)
  | malformed
deriving DecidableEq

/-- The country list used by the development fallback of `decrypt_bid`. -/
def fallback_countries : List String := ["US", "CA", "GB", "DE", "JP"]

/-- `BidProcessor.decrypt_bid` (agent.py lines 361-393).  On a structured
payload it converts wei units (6-decimal USDC, 18-decimal tokens); on a
malformed payload the ABI decode raises, the exception is caught, and a
deterministic development-fallback `BidData` derived from `hash(bidder)` is
returned (no error is propagated). -/
def decrypt_bid (pyHash : String → ℕ) (blob : RawBlob) (bidder : String)
    (max_spend_wei : ℚ) : BidData :=
  match blob with
  | .structured p q pitch country =>
      { bidder := bidder
        price := (p : ℚ) / 1000000
        quantity := q / 10 ^ 18
        pitch := pitch
        country := country
        max_spend := max_spend_wei / 1000000 }
  | .malformed =>
      { bidder := bidder
        price := 1 / 10 + ((pyHash bidder % 100 : ℕ) : ℚ) / 1000
        quantity := 1000 + pyHash bidder % 5000
        pitch := "Innovative blockchain solution from " ++ bidder.take 8
        country := fallback_countries.getD (pyHash bidder % 5) "US"
        max_spend := max_spend_wei }

/-- Modelled from the spec: §4.1 of the specification requires `normalize`
to fail with `DecodeError` when the payload does not match the expected
structured encoding, so that the bid is excluded from the sale
(exclude-and-log, never fabricate).  This definition mirrors the structured
branch of `decrypt_bid` and returns `none` (exclusion) on a malformed
payload; it exists only to be compared against the code's `decrypt_bid`. -/
def decrypt_bid_spec (blob : RawBlob) (bidder : String) (max_spend_wei : ℚ) :
    Option BidData :=
  match blob with
  | .structured p q pitch country =>
      some
        { bidder := bidder
          price := (p : ℚ) / 1000000
          quantity := q / 10 ^ 18
          pitch := pitch
          country := country
          max_spend := max_spend_wei / 1000000 }
  | .malformed => none

/-! ## Scoring (`BidProcessor.score_bid` / `_score_pitch`, agent.py lines 399-500) -/

/-- Lower-case a string character-wise (Python `str.lower()` restricted to
ASCII, which covers the keyword list). -/
def strLower (s : String) : String := String.mk (s.toList.map Char.toLower)

/-- Boolean prefix test on character lists. -/
def chPrefixOf : List Char → List Char → Bool
  | [], _ => true
  | _ :: _, [] => false
  | a :: as, b :: bs => a == b && chPrefixOf as bs

/-- Boolean substring test on character lists (Python `needle in hay`). -/
def chSubstrOf (needle : List Char) : List Char → Bool
  | [] => chPrefixOf needle []
  | h :: t => chPrefixOf needle (h :: t) || chSubstrOf needle t

/-- Python `kw in pitch.lower()`. -/
def keywordIn (kw pitch : String) : Bool :=
  chSubstrOf kw.toList (strLower pitch).toList

/-- The innovation keyword list of the fallback pitch scorer. -/
def innovation_keywords : List String :=
  ["innovative", "revolutionary", "unique", "breakthrough",
   "novel", "ai", "blockchain", "defi", "scalable", "disruptive"]

/-- The deterministic fallback pitch score used when the OpenAI client is
`None` (agent.py lines 461-473): length-based base score plus 5 points per
innovation keyword present, capped at 100. -/
def fallback_score_unavailable (pitch : String) : ℚ :=
  let base := min ((pitch.length : ℚ) / 10 + 30) 85
  let keyword_bonus :=
    5 * ((innovation_keywords.filter (fun kw => keywordIn kw pitch)).length : ℚ)
  min 100 (base + keyword_bonus)

/-- The fallback pitch score used when the OpenAI call raises mid-request
(agent.py line 495): length-only formula, capped at 75. -/
def fallback_score_error (pitch : String) : ℚ :=
  min ((pitch.length : ℚ) / 10 + 40) 75

/-- Outcome of the primary (OpenAI) pitch evaluator for one pitch:
client absent, call errored, or a numeric score returned. -/
inductive PrimaryOutcome
  | unavailable
  | errored
  | ok (score : ℚ)
deriving DecidableEq

/-- `BidProcessor._score_pitch` (agent.py lines 447-500), with the
environment-dependent primary evaluator abstracted into `PrimaryOutcome`.
A returned primary score is clamped to [0, 100]. -/
def score_pitch (primary : PrimaryOutcome) (pitch : String) : ℚ :=
  match primary with
  | .unavailable => fallback_score_unavailable pitch
  | .errored => fallback_score_error pitch
  | .ok s => min (max s 0) 100

/-- The geographic scoring table `BidProcessor.geo_scores` with its default
of 50 for unknown country codes (agent.py lines 332-336, 421). -/
def geo_score_table (country : String) : ℚ :=
  if country = "US" then 90
  else if country = "CA" then 85
  else if country = "GB" then 85
  else if country = "DE" then 80
  else if country = "JP" then 80
  else if country = "FR" then 75
  else if country = "AU" then 75
  else if country = "SG" then 80
  else if country = "CH" then 85
  else if country = "NL" then 80
  else 50

/-- `BidProcessor.score_bid` (agent.py lines 399-445).  `primary` gives the
primary pitch evaluator's outcome for each pitch text. -/
def score_bid (primary : String → PrimaryOutcome) (max_price : ℚ) (b : BidData) :
    ScoredBid :=
  let price_score :=
    if 0 < max_price then min 100 (b.price / max_price * 100)
    else min 100 (b.price * 100)
  let geo_score := geo_score_table b.country
  let pitch_score := score_pitch (primary b.pitch) b.pitch
  { bid_data := b
    price_score := price_score
    geo_score := geo_score
    pitch_score := pitch_score
    total_score := 0.6 * price_score + 0.2 * geo_score + 0.2 * pitch_score }

/-! ## Greedy allocation (`_determine_winners`, agent.py lines 1118-1209) -/

/-- Stable insertion into a score-descending list: the new bid goes in
front of the first bid whose score is `≤` its own.  Used by `sortBids`. -/
def insertBid (x : ScoredBid) : List ScoredBid → List ScoredBid
  | [] => [x]
  | b :: rest =>
      if b.total_score ≤ x.total_score then x :: b :: rest
      else b :: insertBid x rest

/-- `sorted(scored_bids, key=lambda x: x.total_score, reverse=True)`
(agent.py line 1134): a stable sort by `total_score` descending, here as a
stable insertion sort (stable sorts by the same key agree on the output). -/
def sortBids (l : List ScoredBid) : List ScoredBid := l.foldr insertBid []

/-- The mutable state of the allocation loop of `_determine_winners`. -/
structure AllocState where
  winners : List String
  allocations : List (String × ℤ)
  remaining : ℤ
  total_value : ℚ
deriving DecidableEq

/-- `max_affordable = int(bid_data.max_spend / bid_data.price)`
(agent.py line 1171). -/
def maxAffordable (bd : BidData) : ℤ := pyInt (bd.max_spend / bd.price)

/-- `allocation = min(requested, max_affordable, remaining_supply)`
(agent.py line 1173). -/
def allocAmount (s : AllocState) (sb : ScoredBid) : ℤ :=
  min (min (sb.bid_data.quantity : ℤ) (maxAffordable sb.bid_data)) s.remaining

/-- One iteration of the allocation loop body (agent.py lines 1157-1187):
if the allocation is positive, record the winner, its allocation, the
reduced remaining supply and the accumulated value. -/
def allocStep (s : AllocState) (sb : ScoredBid) : AllocState :=
  if 0 < allocAmount s sb then
    { winners := s.winners ++ [sb.bid_data.bidder]
      allocations := dictInsert s.allocations sb.bid_data.bidder (allocAmount s sb)
      remaining := s.remaining - allocAmount s sb
      total_value := s.total_value + (allocAmount s sb : ℚ) * sb.bid_data.price }
  else s

/-- The allocation loop (agent.py lines 1157-1187), including the early
`break` once `remaining_supply <= 0`. -/
def allocLoop : List ScoredBid → AllocState → AllocState
  | [], s => s
  | sb :: rest, s => if s.remaining ≤ 0 then s else allocLoop rest (allocStep s sb)

/-- `_determine_winners` (agent.py lines 1118-1209): sort by total score
descending, record every bidder's requested quantity, run the greedy
allocation, and derive the clearing price as
`total_value / (total_supply - remaining_supply)` when any tokens were
allocated, else `0`. -/
def determine_winners (sale_id : ℕ) (scored_bids : List ScoredBid)
    (total_supply : ℕ) : SettlementResult :=
  let sorted_bids := sortBids scored_bids
  let bid_amounts := scored_bids.foldl
    (fun d sb => dictInsert d sb.bid_data.bidder sb.bid_data.quantity) []
  let total_bids := scored_bids.foldl (fun t sb => t + sb.bid_data.quantity) 0
  let final := allocLoop sorted_bids
    { winners := [], allocations := [], remaining := (total_supply : ℤ), total_value := 0 }
  let allocated := (total_supply : ℤ) - final.remaining
  let clearing_price :=
    if 0 < allocated then final.total_value / (allocated : ℚ) else 0
  { sale_id := sale_id
    clearing_price := clearing_price
    winners := final.winners
    allocations := final.allocations
    bid_amounts := bid_amounts
    total_bids := total_bids }

/-! ## Settlement encoding, signing, parameters, store
(agent.py lines 1378-1563) -/

/-- The canonical byte encoding produced by `_encode_settlement_result`
(agent.py lines 1496-1510): ABI `encode(['uint256','address[]'], ...)` of
the clearing price converted to 6-decimal USDC wei and the winners list.
ABI encoding of typed values is injective, so the encoded bytes are
modelled by the typed tuple itself. -/
structure EncodedResult where
  clearing_price_wei : ℤ
  winners : List String
deriving DecidableEq

/-- `_encode_settlement_result` (agent.py lines 1496-1510). -/
def encode_settlement_result (r : SettlementResult) : EncodedResult :=
  { clearing_price_wei := pyInt (r.clearing_price * 1000000)
    winners := r.winners }

/-- The message hashed and signed by `_sign_settlement` (agent.py lines
1537-1556): `keccak(encode(['address','uint256','bytes'],
[contract_address, sale_id, result_data]))`.  Keccak and the deterministic
ECDSA signature are injective functions of the message, so the signed
settlement is modelled by the typed message contents. -/
structure SignedMessage where
  contract : String
  sale_id : ℕ
  data : EncodedResult
deriving DecidableEq

/-- `_sign_settlement` (agent.py lines 1516-1563). -/
def sign_settlement (contract : String) (sale_id : ℕ) (result_data : EncodedResult) :
    SignedMessage :=
  { contract := contract, sale_id := sale_id, data := result_data }

/-- One entry of the `settlements` array built by
`_build_settlement_params` (agent.py lines 1417-1431): winner, token
amount in 18-decimal wei, payment in 6-decimal USDC wei.  (The empty
permit signature placeholder carries no information and is omitted.) -/
structure SettlementEntry where
  winner : String
  token_amount : ℤ
  payment : ℤ
deriving DecidableEq

/-- The `settlements` array of `_build_settlement_params` (agent.py lines
1417-1431): one entry per recorded allocation, paid at the uniform
clearing price: `int(token_allocation * clearing_price * 1e6)`. -/
def build_settlement_params (r : SettlementResult) : List SettlementEntry :=
  r.allocations.map fun p =>
    { winner := p.1
      token_amount := pyInt ((p.2 : ℚ) * 10 ^ 18)
      payment := pyInt ((p.2 : ℚ) * r.clearing_price * 1000000) }

/-- A record of the settlement store `self.settlement_results`
(agent.py lines 1475-1494): result, signature and storage timestamp. -/
structure StoredSettlement where
  result : SettlementResult
  signature : SignedMessage
  timestamp : ℚ
deriving DecidableEq

/-- The settlement-store effect of one `process_settlement` invocation
(agent.py lines 877-960, 1211-1249, 1475-1494) on already decrypted and
scored bids: recompute the settlement, sign it, and store it under
`sale_id`.  The code consults the store nowhere on this path; the entry is
written unconditionally. -/
def process_settlement_store (store : List (ℕ × StoredSettlement))
    (contract : String) (sale_id : ℕ) (scored_bids : List ScoredBid)
    (supply : ℕ) (now : ℚ) : List (ℕ × StoredSettlement) :=
  let r := determine_winners sale_id scored_bids supply
  let sig := sign_settlement contract sale_id (encode_settlement_result r)
  dictInsert store sale_id { result := r, signature := sig, timestamp := now }

/-- Full single-sale settlement pipeline on decrypted bids (the second
pass of `process_settlement`, agent.py lines 918-949): compute the maximum
observed price, score every bid, and run the allocation. -/
def max_price_of (bids : List BidData) : ℚ :=
  bids.foldl (fun m b => max m b.price) 0

/-- `process_settlement` restricted to its deterministic core: score the
decrypted bids (two-phase max-price protocol) and determine winners. -/
def run_settlement (primary : String → PrimaryOutcome) (sale_id : ℕ)
    (bids : List BidData) (supply : ℕ) : SettlementResult :=
  determine_winners sale_id (bids.map (score_bid primary (max_price_of bids))) supply

/-- Lexicographic order on addresses, character by character (the
"bidder address ascending" tie-break order named by the specification). -/
def addrLexLt : List Char → List Char → Bool
  | [], [] => false
  | [], _ :: _ => true
  | _ :: _, [] => false
  | a :: as, b :: bs => if a < b then true else if b < a then false else addrLexLt as bs

/-! ## Concrete inputs used by scenario theorems, counterexamples and
witnesses -/

/-- Bid A of the specification's allocation scenario (§8): price 2.0,
quantity 800, maxSpend 2000, total score 90. -/
def scenario_bid_a : ScoredBid := ⟨⟨"0xA", 2, 800, "", "US", 2000⟩, 0, 0, 0, 90⟩

/-- Bid B of the specification's allocation scenario (§8): price 1.5,
quantity 500, maxSpend 1000, total score 70. -/
def scenario_bid_b : ScoredBid := ⟨⟨"0xB", 3/2, 500, "", "US", 1000⟩, 0, 0, 0, 70⟩

/-- A bid with the lexicographically larger address `0xbb`, total score 50. -/
def tie_bid_bb : ScoredBid := ⟨⟨"0xbb", 1, 10, "", "US", 100⟩, 0, 0, 0, 50⟩

/-- A bid with the lexicographically smaller address `0xaa`, equal total
score 50. -/
def tie_bid_aa : ScoredBid := ⟨⟨"0xaa", 1, 10, "", "US", 100⟩, 0, 0, 0, 50⟩

/-- High-score bid for the over-budget payment scenario: price 3,
quantity 900, maxSpend 2700, score 90. -/
def budget_bid_a : ScoredBid := ⟨⟨"0xA", 3, 900, "", "US", 2700⟩, 0, 0, 0, 90⟩

/-- Low-price bid for the over-budget payment scenario: price 1,
quantity 1000, maxSpend 100 (so its allocation is budget-capped at 100
tokens at its own price), score 70. -/
def budget_bid_b : ScoredBid := ⟨⟨"0xB", 1, 1000, "", "US", 100⟩, 0, 0, 0, 70⟩

/-- A pre-existing settlement-store entry for sale 1, stored at
timestamp 100. -/
def stale_stored : StoredSettlement :=
  { result := { sale_id := 1, clearing_price := 0, winners := [], allocations := [],
                bid_amounts := [], total_bids := 0 }
    signature := { contract := "0xICO", sale_id := 1,
                   data := { clearing_price_wei := 0, winners := [] } }
    timestamp := 100 }

/-! ## Helper lemmas -/

theorem dictInsert_fresh {κ α : Type} [DecidableEq κ] (d : List (κ × α)) (k : κ) (v : α)
    (h : k ∉ d.map Prod.fst) : dictInsert d k v = d ++ [(k, v)] := by
  induction d with
  | nil => rfl
  | cons p rest ih =>
      simp only [List.map_cons, List.mem_cons] at h
      push_neg at h
      have h1 : ¬ p.1 = k := fun hpk => h.1 hpk.symm
      simp only [dictInsert, if_neg h1, ih h.2, List.cons_append]

theorem mem_dictInsert {κ α : Type} [DecidableEq κ] (d : List (κ × α)) (k : κ) (v : α)
    (a : κ) (b : α) (h : (a, b) ∈ dictInsert d k v) : (a, b) ∈ d ∨ (a = k ∧ b = v) := by
  induction d with
  | nil => simp only [dictInsert, List.mem_singleton, Prod.mk.injEq] at h; exact Or.inr h
  | cons p rest ih =>
      by_cases hpk : p.1 = k
      · simp only [dictInsert, if_pos hpk, List.mem_cons, Prod.mk.injEq] at h
        rcases h with h | h
        · exact Or.inr h
        · exact Or.inl (List.mem_cons_of_mem _ h)
      · simp only [dictInsert, if_neg hpk, List.mem_cons] at h
        rcases h with h | h
        · exact Or.inl (List.mem_cons.mpr (Or.inl h))
        · rcases ih h with h' | h'
          · exact Or.inl (List.mem_cons_of_mem _ h')
          · exact Or.inr h'

theorem dictLookup_dictInsert {κ α : Type} [DecidableEq κ] (d : List (κ × α)) (k : κ) (v : α) :
    dictLookup (dictInsert d k v) k = some v := by
  induction d with
  | nil => simp [dictInsert, dictLookup]
  | cons p rest ih =>
      by_cases hpk : p.1 = k
      · simp [dictInsert, if_pos hpk, dictLookup]
      · simp [dictInsert, if_neg hpk, dictLookup, ih]

theorem insertBid_perm (x : ScoredBid) (l : List ScoredBid) :
    List.Perm (insertBid x l) (x :: l) := by
  induction l with
  | nil => rfl
  | cons b rest ih =>
      by_cases hb : b.total_score ≤ x.total_score
      · simp [insertBid, hb]
      · simp only [insertBid, if_neg hb]
        exact (ih.cons b).trans (List.Perm.swap x b rest)

theorem sortBids_perm (l : List ScoredBid) : List.Perm (sortBids l) l := by
  induction l with
  | nil => rfl
  | cons x rest ih => exact (insertBid_perm x (sortBids rest)).trans (ih.cons x)

theorem insertBid_pairwise (x : ScoredBid) (l : List ScoredBid)
    (h : l.Pairwise (fun a b => b.total_score ≤ a.total_score)) :
    (insertBid x l).Pairwise (fun a b => b.total_score ≤ a.total_score) := by
  induction l with
  | nil => simp [insertBid]
  | cons b rest ih =>
      rcases List.pairwise_cons.mp h with ⟨hb, hrest⟩
      by_cases hbx : b.total_score ≤ x.total_score
      · simp only [insertBid, if_pos hbx]
        refine List.pairwise_cons.mpr ⟨?_, h⟩
        intro c hc
        rcases List.mem_cons.mp hc with rfl | hc
        · exact hbx
        · exact (hb c hc).trans hbx
      · simp only [insertBid, if_neg hbx]
        refine List.pairwise_cons.mpr ⟨?_, ih hrest⟩
        intro c hc
        have := (insertBid_perm x rest).mem_iff.mp hc
        rcases List.mem_cons.mp this with rfl | hc'
        · exact le_of_not_le hbx
        · exact hb c hc'

theorem sortBids_pairwise (l : List ScoredBid) :
    (sortBids l).Pairwise (fun a b => b.total_score ≤ a.total_score) := by
  induction l with
  | nil => simp [sortBids]
  | cons x rest ih => exact insertBid_pairwise x (sortBids rest) ih

theorem insertBid_filter_score (c : ℚ) (x : ScoredBid) (l : List ScoredBid) :
    (insertBid x l).filter (fun sb => decide (sb.total_score = c)) =
      (x :: l).filter (fun sb => decide (sb.total_score = c)) := by
  induction l with
  | nil => rfl
  | cons b rest ih =>
      by_cases hbx : b.total_score ≤ x.total_score
      · simp [insertBid, hbx]
      · simp only [insertBid, if_neg hbx]
        by_cases hx : x.total_score = c
        · have hbc : ¬ b.total_score = c := by
            intro hbc; exact hbx (by rw [hbc, hx])
          simp [List.filter, hx, hbc, ih]
        · by_cases hbc : b.total_score = c
          · simp [List.filter, hx, hbc, ih]
          · simp [List.filter, hx, hbc, ih]

theorem sortBids_filter_score (c : ℚ) (l : List ScoredBid) :
    (sortBids l).filter (fun sb => decide (sb.total_score = c)) =
      l.filter (fun sb => decide (sb.total_score = c)) := by
  induction l with
  | nil => rfl
  | cons x rest ih =>
      have h := insertBid_filter_score c x (sortBids rest)
      simp only [sortBids, List.foldr_cons] at h ⊢
      rw [h]
      simp only [sortBids] at ih
      by_cases hx : x.total_score = c
      · simp [List.filter, hx, ih]
      · simp [List.filter, hx, ih]


theorem allocStep_remaining_le (s : AllocState) (sb : ScoredBid) :
    (allocStep s sb).remaining ≤ s.remaining := by
  unfold allocStep
  by_cases h : 0 < allocAmount s sb
  · simp only [if_pos h]
    omega
  · simp only [if_neg h]
    exact le_refl _

theorem allocAmount_le_remaining (s : AllocState) (sb : ScoredBid) :
    allocAmount s sb ≤ s.remaining := min_le_right _ _

theorem allocLoop_remaining_nonneg (bids : List ScoredBid) (s : AllocState)
    (h : 0 ≤ s.remaining) : 0 ≤ (allocLoop bids s).remaining := by
  induction bids generalizing s with
  | nil => exact h
  | cons sb rest ih =>
      by_cases hrem : s.remaining ≤ 0
      · simpa [allocLoop, hrem] using h
      · simp only [allocLoop, if_neg hrem]
        refine ih _ ?_
        unfold allocStep
        by_cases ha : 0 < allocAmount s sb
        · simp only [if_pos ha]
          have := allocAmount_le_remaining s sb
          omega
        · simpa [if_neg ha] using h

theorem allocLoop_alloc_mem (bids : List ScoredBid) (s : AllocState) (k : String) (v : ℤ)
    (h : (k, v) ∈ (allocLoop bids s).allocations) :
    (k, v) ∈ s.allocations ∨
      ∃ sb ∈ bids, sb.bid_data.bidder = k ∧ 0 < v ∧ v ≤ (sb.bid_data.quantity : ℤ) ∧
        v ≤ maxAffordable sb.bid_data ∧ v ≤ s.remaining := by
  induction bids generalizing s with
  | nil => exact Or.inl h
  | cons sb rest ih =>
      by_cases hrem : s.remaining ≤ 0
      · simp only [allocLoop, if_pos hrem] at h
        exact Or.inl h
      · simp only [allocLoop, if_neg hrem] at h
        rcases ih (allocStep s sb) h with h' | ⟨sb', hsb', hbid, hv, hq, hm, hr⟩
        · -- entry present already after one step
          unfold allocStep at h'
          by_cases ha : 0 < allocAmount s sb
          · simp only [if_pos ha] at h'
            rcases mem_dictInsert _ _ _ _ _ h' with h'' | ⟨rfl, rfl⟩
            · exact Or.inl h''
            · refine Or.inr ⟨sb, List.mem_cons_self _ _, rfl, ha, ?_, ?_, ?_⟩
              · exact le_trans (min_le_left _ _) (min_le_left _ _)
              · exact le_trans (min_le_left _ _) (min_le_right _ _)
              · exact min_le_right _ _
          · simp only [if_neg ha] at h'
            exact Or.inl h'
        · refine Or.inr ⟨sb', List.mem_cons_of_mem _ hsb', hbid, hv, hq, hm, ?_⟩
          exact le_trans hr (allocStep_remaining_le s sb)

theorem allocLoop_winner_mem (bids : List ScoredBid) (s : AllocState) (k : String)
    (h : k ∈ (allocLoop bids s).winners) :
    k ∈ s.winners ∨
      ∃ sb ∈ bids, sb.bid_data.bidder = k ∧ 0 < maxAffordable sb.bid_data ∧
        0 < (sb.bid_data.quantity : ℤ) := by
  induction bids generalizing s with
  | nil => exact Or.inl h
  | cons sb rest ih =>
      by_cases hrem : s.remaining ≤ 0
      · simp only [allocLoop, if_pos hrem] at h
        exact Or.inl h
      · simp only [allocLoop, if_neg hrem] at h
        rcases ih (allocStep s sb) h with h' | ⟨sb', hsb', hbid, hm, hq⟩
        · unfold allocStep at h'
          by_cases ha : 0 < allocAmount s sb
          · simp only [if_pos ha, List.mem_append, List.mem_singleton] at h'
            rcases h' with h'' | rfl
            · exact Or.inl h''
            · refine Or.inr ⟨sb, List.mem_cons_self _ _, rfl, ?_, ?_⟩
              · exact lt_of_lt_of_le ha (le_trans (min_le_left _ _) (min_le_right _ _))
              · exact lt_of_lt_of_le ha (le_trans (min_le_left _ _) (min_le_left _ _))
          · simp only [if_neg ha] at h'
            exact Or.inl h'
        · exact Or.inr ⟨sb', List.mem_cons_of_mem _ hsb', hbid, hm, hq⟩

theorem allocLoop_delta (bids : List ScoredBid) (s : AllocState)
    (hnd : (bids.map fun sb => sb.bid_data.bidder).Nodup)
    (hfresh : ∀ sb ∈ bids, sb.bid_data.bidder ∉ s.allocations.map Prod.fst) :
    ∃ pairs : List (ScoredBid × ℤ),
      (pairs.map Prod.fst).Sublist bids ∧
      (allocLoop bids s).allocations =
        s.allocations ++ pairs.map (fun q => (q.1.bid_data.bidder, q.2)) ∧
      (allocLoop bids s).winners = s.winners ++ pairs.map (fun q => q.1.bid_data.bidder) ∧
      (allocLoop bids s).remaining = s.remaining - (pairs.map Prod.snd).sum ∧
      (allocLoop bids s).total_value =
        s.total_value + (pairs.map (fun q => (q.2 : ℚ) * q.1.bid_data.price)).sum ∧
      ∀ q ∈ pairs, 0 < q.2 := by
  induction bids generalizing s with
  | nil => exact ⟨[], by simp [allocLoop]⟩
  | cons sb rest ih =>
      simp only [List.map_cons, List.nodup_cons] at hnd
      by_cases hrem : s.remaining ≤ 0
      · exact ⟨[], by simp [allocLoop, hrem]⟩
      · simp only [allocLoop, if_neg hrem]
        by_cases ha : 0 < allocAmount s sb
        · have hfr : sb.bid_data.bidder ∉ s.allocations.map Prod.fst :=
            hfresh sb (List.mem_cons_self _ _)
          have hstep : allocStep s sb =
              { winners := s.winners ++ [sb.bid_data.bidder]
                allocations := s.allocations ++ [(sb.bid_data.bidder, allocAmount s sb)]
                remaining := s.remaining - allocAmount s sb
                total_value := s.total_value + (allocAmount s sb : ℚ) * sb.bid_data.price } := by
            unfold allocStep
            rw [if_pos ha, dictInsert_fresh _ _ _ hfr]
          have hfresh' : ∀ t ∈ rest,
              t.bid_data.bidder ∉ (allocStep s sb).allocations.map Prod.fst := by
            intro t ht
            rw [hstep]
            simp only [List.map_append, List.map_cons, List.map_nil, List.mem_append,
              List.mem_singleton]
            rintro (hin | heq)
            · exact hfresh t (List.mem_cons_of_mem _ ht) hin
            · exact hnd.1 (heq ▸ List.mem_map_of_mem (fun u => u.bid_data.bidder) ht)
          obtain ⟨pairs, hsub, hallocs, hwin, hrm, htv, hpos⟩ :=
            ih (allocStep s sb) hnd.2 hfresh'
          refine ⟨(sb, allocAmount s sb) :: pairs, ?_, ?_, ?_, ?_, ?_, ?_⟩
          · simpa using List.Sublist.cons₂ sb hsub
          · rw [hallocs, hstep]
            simp [List.append_assoc]
          · rw [hwin, hstep]
            simp [List.append_assoc]
          · rw [hrm, hstep]
            simp only [List.map_cons, List.sum_cons]
            ring
          · rw [htv, hstep]
            simp only [List.map_cons, List.sum_cons]
            ring
          · intro q hq
            rcases List.mem_cons.mp hq with rfl | hq'
            · exact ha
            · exact hpos q hq'
        · have hstep : allocStep s sb = s := by
            unfold allocStep
            rw [if_neg ha]
          have hfresh2 : ∀ t ∈ rest,
              t.bid_data.bidder ∉ (allocStep s sb).allocations.map Prod.fst := by
            rw [hstep]
            intro t ht
            exact hfresh t (List.mem_cons_of_mem _ ht)
          obtain ⟨pairs, hsub, hallocs, hwin, hrm, htv, hpos⟩ :=
            ih (allocStep s sb) hnd.2 hfresh2
          rw [hstep] at hallocs hwin hrm htv ⊢
          exact ⟨pairs, hsub.cons sb, hallocs, hwin, hrm, htv, hpos⟩

theorem map_snd_pairs (ps : List (ScoredBid × ℤ)) :
    List.map Prod.snd (List.map (fun q : ScoredBid × ℤ => (q.1.bid_data.bidder, q.2)) ps) =
      List.map Prod.snd ps := by
  rw [List.map_map]; rfl

theorem map_fst_pairs (ps : List (ScoredBid × ℤ)) :
    List.map Prod.fst (List.map (fun q : ScoredBid × ℤ => (q.1.bid_data.bidder, q.2)) ps) =
      List.map (fun q : ScoredBid × ℤ => q.1.bid_data.bidder) ps := by
  rw [List.map_map]; rfl

/-- C1: for every sale settled by the allocation engine
(`_determine_winners`), with the bidder addresses of the input bids
pairwise distinct (as they are within a sale), the resulting
`SettlementResult` satisfies `sum(allocations.values()) <= supply`, the
allocation keys are exactly the winners (in particular
`allocations.keys() == set(winners)` and `winners` contains no
duplicates), and every recorded allocation value is strictly positive. -/
theorem C1_settlement_invariants (sale_id : ℕ) (scored_bids : List ScoredBid)
    (total_supply : ℕ)
    (hnd : (scored_bids.map fun sb => sb.bid_data.bidder).Nodup) :
    ((determine_winners sale_id scored_bids total_supply).allocations.map Prod.snd).sum
        ≤ (total_supply : ℤ) ∧
    (determine_winners sale_id scored_bids total_supply).allocations.map Prod.fst =
      (determine_winners sale_id scored_bids total_supply).winners ∧
    (determine_winners sale_id scored_bids total_supply).winners.Nodup ∧
    ∀ p ∈ (determine_winners sale_id scored_bids total_supply).allocations, 0 < p.2 := by
  have hndS : ((sortBids scored_bids).map fun sb => sb.bid_data.bidder).Nodup :=
    ((sortBids_perm scored_bids).map fun sb => sb.bid_data.bidder).nodup_iff.mpr hnd
  obtain ⟨pairs, hsub, hallocs, hwin, hrm, htv, hpos⟩ :=
    allocLoop_delta (sortBids scored_bids)
      { winners := [], allocations := [], remaining := (total_supply : ℤ), total_value := 0 }
      hndS (by intro sb hsb; simp)
  have hrem0 : 0 ≤ (allocLoop (sortBids scored_bids)
      { winners := [], allocations := [], remaining := (total_supply : ℤ),
        total_value := 0 }).remaining :=
    allocLoop_remaining_nonneg _ _ (Int.natCast_nonneg total_supply)
  refine ⟨?_, ?_, ?_, ?_⟩
  · simp only [determine_winners]
    rw [hallocs]
    simp only [List.nil_append, map_snd_pairs]
    rw [hrm] at hrem0
    simp only [List.nil_append] at hrem0
    linarith
  · simp only [determine_winners]
    rw [hallocs, hwin]
    simp only [List.nil_append, map_fst_pairs]
  · simp only [determine_winners]
    rw [hwin]
    simp only [List.nil_append]
    have hmm : List.map (fun q : ScoredBid × ℤ => q.1.bid_data.bidder) pairs =
        List.map (fun sb : ScoredBid => sb.bid_data.bidder) (pairs.map Prod.fst) := by
      rw [List.map_map]; rfl
    rw [hmm]
    exact hndS.sublist (hsub.map fun sb => sb.bid_data.bidder)
  · simp only [determine_winners]
    rw [hallocs]
    simp only [List.nil_append]
    intro p hp
    rcases List.mem_map.mp hp with ⟨q, hq, rfl⟩
    exact hpos q hq

theorem C1_settlement_invariants_witness :
    (([scenario_bid_a, scenario_bid_b].map fun sb => sb.bid_data.bidder).Nodup) ∧
    (((determine_winners 7 [scenario_bid_a, scenario_bid_b] 1000).allocations.map
        Prod.snd).sum ≤ (1000 : ℤ) ∧
      (determine_winners 7 [scenario_bid_a, scenario_bid_b] 1000).allocations.map Prod.fst =
        (determine_winners 7 [scenario_bid_a, scenario_bid_b] 1000).winners ∧
      (determine_winners 7 [scenario_bid_a, scenario_bid_b] 1000).winners.Nodup ∧
      ∀ p ∈ (determine_winners 7 [scenario_bid_a, scenario_bid_b] 1000).allocations,
        0 < p.2) :=
  ⟨by decide, C1_settlement_invariants 7 [scenario_bid_a, scenario_bid_b] 1000 (by decide)⟩

/-- C2: every allocation recorded by the allocation engine belongs to some
input bid with that bidder and is bounded by the bid's requested quantity,
by `floor(maxSpend / price)` and by the supply available when the bid was
processed (hence by the total supply); in particular, when every bid of a
bidder has `maxSpend = 0`, that bidder never appears in `winners`
(prices are assumed strictly positive and budgets non-negative, as the
data model guarantees). -/
theorem C2_budget_demand_bounds (sale_id : ℕ) (scored_bids : List ScoredBid)
    (total_supply : ℕ)
    (hp : ∀ sb ∈ scored_bids, 0 < sb.bid_data.price)
    (hm : ∀ sb ∈ scored_bids, 0 ≤ sb.bid_data.max_spend) :
    (∀ k v, (k, v) ∈ (determine_winners sale_id scored_bids total_supply).allocations →
        ∃ sb ∈ scored_bids, sb.bid_data.bidder = k ∧ 0 < v ∧
          v ≤ (sb.bid_data.quantity : ℤ) ∧
          v ≤ ⌊sb.bid_data.max_spend / sb.bid_data.price⌋ ∧ v ≤ (total_supply : ℤ)) ∧
    (∀ k, (∀ sb ∈ scored_bids, sb.bid_data.bidder = k → sb.bid_data.max_spend = 0) →
        k ∉ (determine_winners sale_id scored_bids total_supply).winners) := by
  constructor
  · intro k v hkv
    simp only [determine_winners] at hkv
    rcases allocLoop_alloc_mem _ _ _ _ hkv with h0 | ⟨sb, hsb, hbid, hv, hq, hmax, hrem⟩
    · simp at h0
    · have hsb' : sb ∈ scored_bids := (sortBids_perm scored_bids).mem_iff.mp hsb
      refine ⟨sb, hsb', hbid, hv, hq, ?_, hrem⟩
      have hdiv : 0 ≤ sb.bid_data.max_spend / sb.bid_data.price :=
        div_nonneg (hm sb hsb') (le_of_lt (hp sb hsb'))
      have : maxAffordable sb.bid_data = ⌊sb.bid_data.max_spend / sb.bid_data.price⌋ := by
        simp [maxAffordable, pyInt, hdiv]
      rwa [this] at hmax
  · intro k hk hwin
    simp only [determine_winners] at hwin
    rcases allocLoop_winner_mem _ _ _ hwin with h0 | ⟨sb, hsb, hbid, hmax, _⟩
    · simp at h0
    · have hsb' : sb ∈ scored_bids := (sortBids_perm scored_bids).mem_iff.mp hsb
      have hms : sb.bid_data.max_spend = 0 := hk sb hsb' hbid
      have : maxAffordable sb.bid_data = 0 := by
        simp [maxAffordable, pyInt, hms]
      rw [this] at hmax
      exact lt_irrefl 0 hmax

theorem C2_budget_demand_bounds_witness :
    (∀ sb ∈ [scenario_bid_a, scenario_bid_b], 0 < sb.bid_data.price) ∧
    ((∀ k v, (k, v) ∈ (determine_winners 7 [scenario_bid_a, scenario_bid_b] 1000).allocations →
        ∃ sb ∈ [scenario_bid_a, scenario_bid_b], sb.bid_data.bidder = k ∧ 0 < v ∧
          v ≤ (sb.bid_data.quantity : ℤ) ∧
          v ≤ ⌊sb.bid_data.max_spend / sb.bid_data.price⌋ ∧ v ≤ (1000 : ℤ)) ∧
      (∀ k, (∀ sb ∈ [scenario_bid_a, scenario_bid_b],
            sb.bid_data.bidder = k → sb.bid_data.max_spend = 0) →
        k ∉ (determine_winners 7 [scenario_bid_a, scenario_bid_b] 1000).winners)) :=
  ⟨by intro sb hsb; fin_cases hsb <;> norm_num [scenario_bid_a, scenario_bid_b],
   C2_budget_demand_bounds 7 [scenario_bid_a, scenario_bid_b] 1000
     (by intro sb hsb; fin_cases hsb <;> norm_num [scenario_bid_a, scenario_bid_b])
     (by intro sb hsb; fin_cases hsb <;> norm_num [scenario_bid_a, scenario_bid_b])⟩

/-- C3: with distinct bidder addresses and `pm` giving each bidder's bid
price, the clearing price of the allocation engine equals the accumulated
`allocation * price` over the recorded allocations divided by the number
of allocated tokens when any tokens were allocated, and is `0` otherwise;
concretely, for supply 1000 and the two scenario bids A (price 2.0,
quantity 800, maxSpend 2000, score 90) and B (price 1.5, quantity 500,
maxSpend 1000, score 70) the engine allocates 800 to A and 200 to B and
returns clearing price 1.9. -/
theorem C3_clearing_price (sale_id : ℕ) (scored_bids : List ScoredBid)
    (total_supply : ℕ)
    (hnd : (scored_bids.map fun sb => sb.bid_data.bidder).Nodup)
    (pm : String → ℚ)
    (hpm : ∀ sb ∈ scored_bids, pm sb.bid_data.bidder = sb.bid_data.price) :
    ((((determine_winners sale_id scored_bids total_supply).allocations.map
          Prod.snd).sum = 0) →
        (determine_winners sale_id scored_bids total_supply).clearing_price = 0) ∧
    ((0 < ((determine_winners sale_id scored_bids total_supply).allocations.map
          Prod.snd).sum) →
        (determine_winners sale_id scored_bids total_supply).clearing_price =
          ((determine_winners sale_id scored_bids total_supply).allocations.map
              (fun p => (p.2 : ℚ) * pm p.1)).sum /
            ((((determine_winners sale_id scored_bids total_supply).allocations.map
                Prod.snd).sum : ℤ) : ℚ)) ∧
    determine_winners 7 [scenario_bid_a, scenario_bid_b] 1000 =
      { sale_id := 7, clearing_price := 19/10, winners := ["0xA", "0xB"],
        allocations := [("0xA", 800), ("0xB", 200)],
        bid_amounts := [("0xA", 800), ("0xB", 500)], total_bids := 1300 } := by
  have hndS : ((sortBids scored_bids).map fun sb => sb.bid_data.bidder).Nodup :=
    ((sortBids_perm scored_bids).map fun sb => sb.bid_data.bidder).nodup_iff.mpr hnd
  obtain ⟨pairs, hsub, hallocs, hwin, hrm, htv, hpos⟩ :=
    allocLoop_delta (sortBids scored_bids)
      { winners := [], allocations := [], remaining := (total_supply : ℤ), total_value := 0 }
      hndS (by intro sb hsb; simp)
  have hS : ((determine_winners sale_id scored_bids total_supply).allocations.map
      Prod.snd).sum = (pairs.map Prod.snd).sum := by
    simp only [determine_winners]
    rw [hallocs]
    simp only [List.nil_append, map_snd_pairs]
  have halloc_eq : ((total_supply : ℤ) - (allocLoop (sortBids scored_bids)
      { winners := [], allocations := [], remaining := (total_supply : ℤ),
        total_value := 0 }).remaining) = (pairs.map Prod.snd).sum := by
    rw [hrm]; ring
  have hcp : (determine_winners sale_id scored_bids total_supply).clearing_price =
      if 0 < (pairs.map Prod.snd).sum then
        (pairs.map (fun q => (q.2 : ℚ) * q.1.bid_data.price)).sum /
          (((pairs.map Prod.snd).sum : ℤ) : ℚ)
      else 0 := by
    simp only [determine_winners]
    rw [halloc_eq, htv]
    simp only [zero_add]
  refine ⟨?_, ?_, ?_⟩
  · intro h0
    rw [hS] at h0
    rw [hcp, h0]
    simp
  · intro hpos'
    rw [hS] at hpos'
    rw [hcp, if_pos hpos', hS]
    have hvals : ((determine_winners sale_id scored_bids total_supply).allocations.map
        (fun p => (p.2 : ℚ) * pm p.1)).sum =
        (pairs.map (fun q => (q.2 : ℚ) * q.1.bid_data.price)).sum := by
      simp only [determine_winners]
      rw [hallocs]
      simp only [List.nil_append, List.map_map]
      congr 1
      refine List.map_congr_left ?_
      intro q hq
      simp only [Function.comp]
      have hq1 : q.1 ∈ pairs.map Prod.fst := List.mem_map_of_mem Prod.fst hq
      have hq2 : q.1 ∈ sortBids scored_bids := hsub.subset hq1
      have hq3 : q.1 ∈ scored_bids := (sortBids_perm scored_bids).mem_iff.mp hq2
      rw [hpm q.1 hq3]
    rw [hvals]
  · norm_num [determine_winners, sortBids, insertBid, allocLoop, allocStep, allocAmount,
      maxAffordable, pyInt, dictInsert, scenario_bid_a, scenario_bid_b]
    decide

theorem C3_clearing_price_witness :
    (([scenario_bid_a, scenario_bid_b].map fun sb => sb.bid_data.bidder).Nodup) ∧
    ((((determine_winners 7 [scenario_bid_a, scenario_bid_b] 1000).allocations.map
          Prod.snd).sum = 0) →
        (determine_winners 7 [scenario_bid_a, scenario_bid_b] 1000).clearing_price = 0) ∧
    ((0 < ((determine_winners 7 [scenario_bid_a, scenario_bid_b] 1000).allocations.map
          Prod.snd).sum) →
        (determine_winners 7 [scenario_bid_a, scenario_bid_b] 1000).clearing_price =
          ((determine_winners 7 [scenario_bid_a, scenario_bid_b] 1000).allocations.map
              (fun p => (p.2 : ℚ) *
                (if p.1 = "0xA" then (2 : ℚ) else 3/2))).sum /
            ((((determine_winners 7 [scenario_bid_a, scenario_bid_b] 1000).allocations.map
                Prod.snd).sum : ℤ) : ℚ)) ∧
    determine_winners 7 [scenario_bid_a, scenario_bid_b] 1000 =
      { sale_id := 7, clearing_price := 19/10, winners := ["0xA", "0xB"],
        allocations := [("0xA", 800), ("0xB", 200)],
        bid_amounts := [("0xA", 800), ("0xB", 500)], total_bids := 1300 } :=
  ⟨by decide,
   C3_clearing_price 7 [scenario_bid_a, scenario_bid_b] 1000 (by decide)
     (fun k => if k = "0xA" then (2 : ℚ) else 3/2)
     (by intro sb hsb; fin_cases hsb <;> rfl)⟩

/-- C4 counterexample: two bids with equal total score 50, where the
lexicographically smaller address `0xaa` comes second in the input list.
The claim says the engine considers `0xaa` first (address-ascending
tie-break), so with supply 10 exhausted by the first processed bid the
winner would be `0xaa`; the code's sort is by score alone (stable), so the
winner is `0xbb` and `0xaa` gets nothing. -/
theorem C4_tie_break_counterexample :
    tie_bid_aa.total_score = tie_bid_bb.total_score ∧
    addrLexLt "0xaa".toList "0xbb".toList = true ∧
    (determine_winners 1 [tie_bid_bb, tie_bid_aa] 10).winners = ["0xbb"] ∧
    "0xaa" ∉ (determine_winners 1 [tie_bid_bb, tie_bid_aa] 10).winners := by
  have h : determine_winners 1 [tie_bid_bb, tie_bid_aa] 10 =
      { sale_id := 1, clearing_price := 1, winners := ["0xbb"],
        allocations := [("0xbb", 10)],
        bid_amounts := [("0xbb", 10), ("0xaa", 10)], total_bids := 20 } := by
    norm_num [determine_winners, sortBids, insertBid, allocLoop, allocStep, allocAmount,
      maxAffordable, pyInt, dictInsert, tie_bid_aa, tie_bid_bb]
    decide
  refine ⟨rfl, by decide, ?_, ?_⟩
  · rw [h]
  · rw [h]
    decide

/-- C4 amended: the allocation engine processes bids in the order given
by a stable sort on `totalScore` descending: the sorted list is a
permutation of the input, its scores are non-increasing, and bids with
equal `totalScore` keep their relative input order (so equal-score
ordering depends on the input list's order, not on the bidder address). -/
theorem C4_stable_sort_amended (l : List ScoredBid) :
    List.Perm (sortBids l) l ∧
    (sortBids l).Pairwise (fun a b => b.total_score ≤ a.total_score) ∧
    ∀ c : ℚ, (sortBids l).filter (fun sb => decide (sb.total_score = c)) =
      l.filter (fun sb => decide (sb.total_score = c)) :=
  ⟨sortBids_perm l, sortBids_pairwise l, fun c => sortBids_filter_score c l⟩

/-- C5 counterexample: the settlement store already holds a signed
settlement for sale 1 (stored at timestamp 100), yet invoking the
settlement path again re-signs and overwrites the entry (the stored
record changes), contradicting the claimed check-and-return-stored
behaviour. -/
theorem C5_idempotence_counterexample :
    process_settlement_store [(1, stale_stored)] "0xICO" 1
        [scenario_bid_a, scenario_bid_b] 1000 200 ≠ [(1, stale_stored)] ∧
    dictLookup (process_settlement_store [(1, stale_stored)] "0xICO" 1
        [scenario_bid_a, scenario_bid_b] 1000 200) 1 ≠ some stale_stored := by
  have hl : dictLookup (process_settlement_store [(1, stale_stored)] "0xICO" 1
      [scenario_bid_a, scenario_bid_b] 1000 200) 1 =
      some { result := determine_winners 1 [scenario_bid_a, scenario_bid_b] 1000
             signature := sign_settlement "0xICO" 1 (encode_settlement_result
               (determine_winners 1 [scenario_bid_a, scenario_bid_b] 1000))
             timestamp := 200 } := dictLookup_dictInsert _ _ _
  have hts : ∀ x : StoredSettlement,
      dictLookup (process_settlement_store [(1, stale_stored)] "0xICO" 1
        [scenario_bid_a, scenario_bid_b] 1000 200) 1 = some x → x.timestamp = 200 := by
    intro x hx
    rw [hl] at hx
    cases hx
    rfl
  constructor
  · intro heq
    have h100 := hts stale_stored
    rw [heq] at h100
    have h2 := h100 (by simp [dictLookup])
    simp only [stale_stored] at h2
    norm_num at h2
  · intro heq
    have := hts stale_stored heq
    simp only [stale_stored] at this
    norm_num at this

/-- C5 amended: the settlement path performs no idempotence check against
the settlement store: every invocation recomputes the settlement, re-signs
it, and overwrites the store entry for the sale id with a fresh timestamp.
A second invocation on the same inputs stores the same deterministic
result and signature, with only the timestamp replaced. -/
theorem C5_store_overwrite_amended (store : List (ℕ × StoredSettlement))
    (contract : String) (sale_id : ℕ) (scored_bids : List ScoredBid)
    (supply : ℕ) (t1 t2 : ℚ) :
    dictLookup (process_settlement_store (process_settlement_store store contract
        sale_id scored_bids supply t1) contract sale_id scored_bids supply t2) sale_id =
      some { result := determine_winners sale_id scored_bids supply
             signature := sign_settlement contract sale_id (encode_settlement_result
               (determine_winners sale_id scored_bids supply))
             timestamp := t2 } :=
  dictLookup_dictInsert _ _ _

/-- C6 counterexample: on a payload that does not match the expected
structured encoding, `decrypt_bid` does not fail: it returns a fabricated
development-fallback `BidData` derived from `hash(bidder)` (here with
`hash(bidder) = 3`), while the specified behaviour excludes the bid. -/
theorem C6_fabrication_counterexample :
    decrypt_bid (fun _ => 3) RawBlob.malformed "0xABCDEF1234" 0 =
      { bidder := "0xABCDEF1234", price := 103/1000, quantity := 1003,
        pitch := "Innovative blockchain solution from 0xABCDEF", country := "DE",
        max_spend := 0 } ∧
    decrypt_bid_spec RawBlob.malformed "0xABCDEF1234" 0 = none ∧
    some (decrypt_bid (fun _ => 3) RawBlob.malformed "0xABCDEF1234" 0) ≠
      decrypt_bid_spec RawBlob.malformed "0xABCDEF1234" 0 := by
  refine ⟨?_, rfl, by simp [decrypt_bid_spec]⟩
  simp only [decrypt_bid, fallback_countries, BidData.mk.injEq]
  norm_num
  decide

/-- C6 amended: on a malformed payload `decrypt_bid` never raises a
`DecodeError`; it fabricates a deterministic fallback `BidData` whose
price lies in [0.1, 0.199], whose quantity lies in [1000, 5999], whose
country comes from a fixed five-element list, and whose `max_spend`
passes the raw argument through; only the spec-modelled normalizer
excludes the bid. -/
theorem C6_fallback_amended (pyHash : String → ℕ) (bidder : String) (ms : ℚ) :
    1/10 ≤ (decrypt_bid pyHash RawBlob.malformed bidder ms).price ∧
    (decrypt_bid pyHash RawBlob.malformed bidder ms).price ≤ 199/1000 ∧
    1000 ≤ (decrypt_bid pyHash RawBlob.malformed bidder ms).quantity ∧
    (decrypt_bid pyHash RawBlob.malformed bidder ms).quantity ≤ 5999 ∧
    (decrypt_bid pyHash RawBlob.malformed bidder ms).country ∈ fallback_countries ∧
    (decrypt_bid pyHash RawBlob.malformed bidder ms).max_spend = ms ∧
    decrypt_bid_spec RawBlob.malformed bidder ms = none := by
  have h100 : ((pyHash bidder % 100 : ℕ) : ℚ) ≤ 99 := by
    have : pyHash bidder % 100 < 100 := Nat.mod_lt _ (by norm_num)
    exact_mod_cast Nat.le_of_lt_succ this
  have h100n : (0 : ℚ) ≤ ((pyHash bidder % 100 : ℕ) : ℚ) := Nat.cast_nonneg _
  have h5000 : pyHash bidder % 5000 < 5000 := Nat.mod_lt _ (by norm_num)
  have h5 : pyHash bidder % 5 < 5 := Nat.mod_lt _ (by norm_num)
  have hmem : ∀ n, n < 5 → fallback_countries.getD n "US" ∈ fallback_countries := by decide
  refine ⟨?_, ?_, ?_, ?_, ?_, rfl, rfl⟩
  · simp only [decrypt_bid]
    linarith
  · simp only [decrypt_bid]
    linarith
  · simp only [decrypt_bid]
    omega
  · simp only [decrypt_bid]
    omega
  · simp only [decrypt_bid]
    exact hmem _ h5

/-- C7: the message signed for a settlement is the (injectively modelled)
hash of the structured encoding of the authorizing contract address, the
sale id, and the canonical encoding; the canonical encoding is the
fixed-order pair of the clearing price as a 6-decimal fixed-point integer
and the winners as an ordered list, and that list consists of bidder
addresses selected in order from the score-descending sorted bids, so its
corresponding total scores are non-increasing. -/
theorem C7_signed_message (contract : String) (sale_id : ℕ)
    (scored_bids : List ScoredBid) (total_supply : ℕ)
    (hnd : (scored_bids.map fun sb => sb.bid_data.bidder).Nodup) :
    sign_settlement contract sale_id
        (encode_settlement_result (determine_winners sale_id scored_bids total_supply)) =
      ⟨contract, sale_id,
        ⟨pyInt ((determine_winners sale_id scored_bids total_supply).clearing_price
            * 1000000),
          (determine_winners sale_id scored_bids total_supply).winners⟩⟩ ∧
    ∃ ws : List ScoredBid, ws.Sublist (sortBids scored_bids) ∧
      (determine_winners sale_id scored_bids total_supply).winners =
        ws.map (fun sb => sb.bid_data.bidder) ∧
      (ws.map fun sb => sb.total_score).Pairwise (fun a b => b ≤ a) := by
  have hndS : ((sortBids scored_bids).map fun sb => sb.bid_data.bidder).Nodup :=
    ((sortBids_perm scored_bids).map fun sb => sb.bid_data.bidder).nodup_iff.mpr hnd
  obtain ⟨pairs, hsub, hallocs, hwin, hrm, htv, hpos⟩ :=
    allocLoop_delta (sortBids scored_bids)
      { winners := [], allocations := [], remaining := (total_supply : ℤ), total_value := 0 }
      hndS (by intro sb hsb; simp)
  refine ⟨rfl, pairs.map Prod.fst, hsub, ?_, ?_⟩
  · simp only [determine_winners]
    rw [hwin]
    simp only [List.nil_append]
    rw [List.map_map]
    rfl
  · refine List.pairwise_map.mpr ?_
    exact List.Pairwise.sublist hsub (sortBids_pairwise scored_bids)

theorem C7_signed_message_witness :
    (([scenario_bid_a, scenario_bid_b].map fun sb => sb.bid_data.bidder).Nodup) ∧
    (sign_settlement "0xICO" 7
        (encode_settlement_result (determine_winners 7 [scenario_bid_a, scenario_bid_b]
          1000)) =
      ⟨"0xICO", 7,
        ⟨pyInt ((determine_winners 7 [scenario_bid_a, scenario_bid_b] 1000).clearing_price
            * 1000000),
          (determine_winners 7 [scenario_bid_a, scenario_bid_b] 1000).winners⟩⟩ ∧
     ∃ ws : List ScoredBid, ws.Sublist (sortBids [scenario_bid_a, scenario_bid_b]) ∧
       (determine_winners 7 [scenario_bid_a, scenario_bid_b] 1000).winners =
         ws.map (fun sb => sb.bid_data.bidder) ∧
       (ws.map fun sb => sb.total_score).Pairwise (fun a b => b ≤ a)) :=
  ⟨by decide, C7_signed_message "0xICO" 7 [scenario_bid_a, scenario_bid_b] 1000 (by decide)⟩

/-- C8 counterexample: for the pitch text "innovative ai blockchain" the
evaluator-absent fallback (length plus keyword bonus, 47.4) and the
call-errored fallback (length only, 42.4) disagree, so the pitch score is
not produced by a single fallback evaluator giving the same value in both
failure modes. -/
theorem C8_two_fallbacks_counterexample :
    score_pitch PrimaryOutcome.unavailable "innovative ai blockchain" ≠
      score_pitch PrimaryOutcome.errored "innovative ai blockchain" := by
  have hf : innovation_keywords.filter
      (fun kw => keywordIn kw "innovative ai blockchain") =
      ["innovative", "ai", "blockchain"] := rfl
  have hlen : "innovative ai blockchain".length = 24 := rfl
  simp only [score_pitch, fallback_score_unavailable, fallback_score_error, hf, hlen]
  norm_num

/-- C8 amended: the pitch score degrades to a deterministic fallback on
every primary-evaluator failure, but to two different ones: evaluator
absent uses the length-and-keyword formula while a mid-call error uses a
length-only formula; each fallback depends only on the pitch text, and
every pitch score (fallbacks and clamped primary scores alike) lies in
[0, 100]. -/
theorem C8_fallback_bounds_amended (primary : PrimaryOutcome) (pitch : String) :
    0 ≤ score_pitch primary pitch ∧ score_pitch primary pitch ≤ 100 ∧
    score_pitch PrimaryOutcome.unavailable pitch = fallback_score_unavailable pitch ∧
    score_pitch PrimaryOutcome.errored pitch = fallback_score_error pitch := by
  refine ⟨?_, ?_, rfl, rfl⟩
  · cases primary with
    | unavailable =>
        simp only [score_pitch, fallback_score_unavailable]
        refine le_min (by norm_num) ?_
        have hb : (0 : ℚ) ≤ min ((pitch.length : ℚ) / 10 + 30) 85 :=
          le_min (by positivity) (by norm_num)
        have hk : (0 : ℚ) ≤
            5 * ((innovation_keywords.filter (fun kw => keywordIn kw pitch)).length : ℚ) := by
          positivity
        linarith
    | errored =>
        simp only [score_pitch, fallback_score_error]
        exact le_min (by positivity) (by norm_num)
    | ok s =>
        simp only [score_pitch]
        exact le_min (le_max_right s 0) (by norm_num)
  · cases primary with
    | unavailable =>
        simp only [score_pitch, fallback_score_unavailable]
        exact min_le_left _ _
    | errored =>
        simp only [score_pitch, fallback_score_error]
        exact (min_le_right _ _).trans (by norm_num)
    | ok s =>
        simp only [score_pitch]
        exact min_le_right _ _

/-- C9: two settlement runs over the same decrypted bids in the same
order and the same sale metadata, with the primary pitch evaluator
unavailable for every pitch in both runs, produce an identical
`SettlementResult` (same winners in the same order, same allocations,
same bid amounts, same clearing price). -/
theorem C9_determinism (p1 p2 : String → PrimaryOutcome) (sale_id : ℕ)
    (bids : List BidData) (supply : ℕ)
    (h1 : ∀ t, p1 t = PrimaryOutcome.unavailable)
    (h2 : ∀ t, p2 t = PrimaryOutcome.unavailable) :
    run_settlement p1 sale_id bids supply = run_settlement p2 sale_id bids supply := by
  have hmap : bids.map (score_bid p1 (max_price_of bids)) =
      bids.map (score_bid p2 (max_price_of bids)) := by
    refine List.map_congr_left ?_
    intro b _
    simp only [score_bid, h1, h2]
  simp only [run_settlement, hmap]

theorem C9_determinism_witness :
    (∀ t : String, (fun _ : String => PrimaryOutcome.unavailable) t =
      PrimaryOutcome.unavailable) ∧
    run_settlement (fun _ => PrimaryOutcome.unavailable) 3
        [scenario_bid_a.bid_data, scenario_bid_b.bid_data] 1000 =
      run_settlement (fun _ => PrimaryOutcome.unavailable) 3
        [scenario_bid_a.bid_data, scenario_bid_b.bid_data] 1000 :=
  ⟨fun _ => rfl,
   C9_determinism (fun _ => PrimaryOutcome.unavailable)
     (fun _ => PrimaryOutcome.unavailable) 3
     [scenario_bid_a.bid_data, scenario_bid_b.bid_data] 1000
     (fun _ => rfl) (fun _ => rfl)⟩

/-- C10: every recorded allocation produces a settlement-parameter entry
whose payment is `int(allocation * clearingPrice * 1e6)` — the uniform
clearing price, not the winner's own bid price; and on the concrete
two-bid input, winner `0xB` (own price 1, maxSpend 100, allocation 100
enforced against its own price during allocation) is charged 280 USDC at
the clearing price 2.8, strictly exceeding its declared maxSpend of
100. -/
theorem C10_payment_at_clearing_price (r : SettlementResult) (k : String) (a : ℤ)
    (h : (k, a) ∈ r.allocations) :
    (⟨k, pyInt ((a : ℚ) * 10 ^ 18), pyInt ((a : ℚ) * r.clearing_price * 1000000)⟩ :
        SettlementEntry) ∈ build_settlement_params r ∧
    (determine_winners 1 [budget_bid_a, budget_bid_b] 1000).clearing_price = 14/5 ∧
    budget_bid_b.bid_data.price <
      (determine_winners 1 [budget_bid_a, budget_bid_b] 1000).clearing_price ∧
    ("0xB", (100 : ℤ)) ∈ (determine_winners 1 [budget_bid_a, budget_bid_b] 1000).allocations ∧
    (100 : ℚ) * budget_bid_b.bid_data.price ≤ budget_bid_b.bid_data.max_spend ∧
    (∃ e, e ∈ build_settlement_params (determine_winners 1 [budget_bid_a, budget_bid_b]
        1000) ∧ e.winner = "0xB" ∧ e.payment = 280000000 ∧
      pyInt (budget_bid_b.bid_data.max_spend * 1000000) < e.payment) := by
  have h10 : determine_winners 1 [budget_bid_a, budget_bid_b] 1000 =
      { sale_id := 1, clearing_price := 14/5, winners := ["0xA", "0xB"],
        allocations := [("0xA", 900), ("0xB", 100)],
        bid_amounts := [("0xA", 900), ("0xB", 1000)], total_bids := 1900 } := by
    norm_num [determine_winners, sortBids, insertBid, allocLoop, allocStep, allocAmount,
      maxAffordable, pyInt, dictInsert, budget_bid_a, budget_bid_b]
    decide
  refine ⟨List.mem_map_of_mem _ h, ?_, ?_, ?_, ?_, ?_⟩
  · rw [h10]
  · rw [h10]
    norm_num [budget_bid_b]
  · rw [h10]
    decide
  · norm_num [budget_bid_b]
  · rw [h10]
    refine ⟨_, List.mem_map_of_mem _ (show (("0xB" : String), (100 : ℤ)) ∈
        [("0xA", (900 : ℤ)), ("0xB", 100)] by decide), rfl, ?_, ?_⟩
    · show pyInt (((100 : ℤ) : ℚ) * (14/5) * 1000000) = 280000000
      norm_num [pyInt]
    · show pyInt (budget_bid_b.bid_data.max_spend * 1000000) <
        pyInt (((100 : ℤ) : ℚ) * (14/5) * 1000000)
      norm_num [pyInt, budget_bid_b]

theorem C10_payment_at_clearing_price_witness :
    (("0xB", (100 : ℤ)) ∈ (determine_winners 1 [budget_bid_a, budget_bid_b]
        1000).allocations) ∧
    ((⟨"0xB", pyInt (((100 : ℤ) : ℚ) * 10 ^ 18),
        pyInt (((100 : ℤ) : ℚ) *
          (determine_winners 1 [budget_bid_a, budget_bid_b] 1000).clearing_price *
          1000000)⟩ : SettlementEntry) ∈
        build_settlement_params (determine_winners 1 [budget_bid_a, budget_bid_b] 1000) ∧
      (determine_winners 1 [budget_bid_a, budget_bid_b] 1000).clearing_price = 14/5 ∧
      budget_bid_b.bid_data.price <
        (determine_winners 1 [budget_bid_a, budget_bid_b] 1000).clearing_price ∧
      ("0xB", (100 : ℤ)) ∈ (determine_winners 1 [budget_bid_a, budget_bid_b]
        1000).allocations ∧
      (100 : ℚ) * budget_bid_b.bid_data.price ≤ budget_bid_b.bid_data.max_spend ∧
      (∃ e, e ∈ build_settlement_params (determine_winners 1 [budget_bid_a, budget_bid_b]
          1000) ∧ e.winner = "0xB" ∧ e.payment = 280000000 ∧
        pyInt (budget_bid_b.bid_data.max_spend * 1000000) < e.payment)) :=
  ⟨by
    norm_num [determine_winners, sortBids, insertBid, allocLoop, allocStep, allocAmount,
      maxAffordable, pyInt, dictInsert, budget_bid_a, budget_bid_b]
    decide,
   C10_payment_at_clearing_price (determine_winners 1 [budget_bid_a, budget_bid_b] 1000)
     "0xB" 100
     (by
       norm_num [determine_winners, sortBids, insertBid, allocLoop, allocStep, allocAmount,
         maxAffordable, pyInt, dictInsert, budget_bid_a, budget_bid_b]
       decide)⟩
